import Mathlib

/-!
Shallow embedding of the circuit-designer core (CircuitEngine in the
engine source file, and `validateCircuitCode` / UI wrappers in `main.js`).

Strings are modelled as `List Char`; JavaScript numbers reaching these
code paths are non-negative integers and are modelled as `Nat` (all
values arising here are far below 2^53, where doubles are exact).  The
two line grammars are the regexes

  component:  ^(\w+):\s*(\w+)(?:\s+([\w.]+))?(?:\s+\((\d+),\s*(\d+)\))?$
  connection: ^(\w+)\s*->\s*(\w+)$

In both, every quantified character class is disjoint from the token
that must follow it (`\w` vs `:`, `\s`, `(`; `[\w.]` and `\d` vs `\s`,
`,`, `)`; `\w` vs `-`), so greedy backtracking matching coincides with
deterministic maximal-munch scanning, which is what is implemented
below.
-/

/-- JavaScript `\w` character class: ASCII letters, digits, underscore. -/
def isWordChar (c : Char) : Bool :=
  c.isAlpha || c.isDigit || c = '_'

/-- JavaScript `\s` class / `String.prototype.trim` whitespace set. -/
def isJsSpace (c : Char) : Bool :=
  c = ' ' || c = '\t' || c = '\n' || c = '\x0b' || c = '\x0c' || c = '\r' ||
  c = '\u00A0' || c = '\u1680' || (0x2000 ≤ c.toNat && c.toNat ≤ 0x200A) ||
  c = '\u2028' || c = '\u2029' || c = '\u202F' || c = '\u205F' ||
  c = '\u3000' || c = '\uFEFF'

/-- JavaScript `line.trim()`. -/
def jsTrim (cs : List Char) : List Char :=
  ((cs.dropWhile isJsSpace).reverse.dropWhile isJsSpace).reverse

/-- JavaScript `code.split('\n')`. -/
def splitLines : List Char → List (List Char)
  | [] => [[]]
  | c :: rest =>
    if c = '\n' then [] :: splitLines rest
    else
      match splitLines rest with
      | [] => [[c]]
      | l :: ls => (c :: l) :: ls

/-- JavaScript check that the trimmed line starts with `//`. -/
def isCommentLine : List Char → Bool
  | a :: b :: _ => a = '/' && b = '/'
  | _ => false

/-- JavaScript check that the line contains the arrow `->`. -/
def hasArrow : List Char → Bool
  | [] => false
  | '-' :: '>' :: _ => true
  | _ :: rest => hasArrow rest

/-- `parseInt` on a non-empty decimal digit string. -/
def natOfDigits (ds : List Char) : Nat :=
  ds.foldl (fun a c => a * 10 + (c.toNat - 48)) 0

/-- Captures of the component regex: `name`, `type`, optional `value`,
optional digit strings for `x` and `y`. -/
structure CompMatch where
  name : List Char
  type : List Char
  value : Option (List Char)
  x : Option (List Char)
  y : Option (List Char)
deriving Repr, DecidableEq

/-- The optional group `(?:\s+([\w.]+))?`: on failure the scan position
is restored (the group simply does not participate). -/
def matchValueGroup (cs : List Char) : Option (List Char) × List Char :=
  match cs with
  | [] => (none, cs)
  | c :: rest =>
    if isJsSpace c then
      let r := rest.dropWhile isJsSpace
      let (v, r2) := r.span (fun d => isWordChar d || d = '.')
      if v = [] then (none, cs) else (some v, r2)
    else (none, cs)

/-- The optional group `(?:\s+\((\d+),\s*(\d+)\))?`. -/
def matchPosGroup (cs : List Char) : Option (List Char × List Char) × List Char :=
  match cs with
  | [] => (none, cs)
  | c :: rest =>
    if isJsSpace c then
      match rest.dropWhile isJsSpace with
      | '(' :: r1 =>
        let (d1, r2) := r1.span Char.isDigit
        if d1 = [] then (none, cs)
        else
          match r2 with
          | ',' :: r3 =>
            let (d2, r5) := (r3.dropWhile isJsSpace).span Char.isDigit
            if d2 = [] then (none, cs)
            else
              match r5 with
              | ')' :: r6 => (some (d1, d2), r6)
              | _ => (none, cs)
          | _ => (none, cs)
      | _ => (none, cs)
    else (none, cs)

/-- Anchored match of the component-declaration regex
`^(\w+):\s*(\w+)(?:\s+([\w.]+))?(?:\s+\((\d+),\s*(\d+)\))?$`. -/
def componentMatch (cs : List Char) : Option CompMatch :=
  let (nm, r0) := cs.span isWordChar
  if nm = [] then none
  else
    match r0 with
    | ':' :: r1 =>
      let (ty, r3) := (r1.dropWhile isJsSpace).span isWordChar
      if ty = [] then none
      else
        let (v, r4) := matchValueGroup r3
        let (p, r5) := matchPosGroup r4
        if r5 = [] then some ⟨nm, ty, v, p.map Prod.fst, p.map Prod.snd⟩
        else none
    | _ => none

/-- Anchored match of the connection regex `^(\w+)\s*->\s*(\w+)$`. -/
def connectionMatch (cs : List Char) : Option (List Char × List Char) :=
  let (f, r0) := cs.span isWordChar
  if f = [] then none
  else
    match r0.dropWhile isJsSpace with
    | '-' :: '>' :: r2 =>
      let (t, r4) := (r2.dropWhile isJsSpace).span isWordChar
      if t = [] then none
      else if r4 = [] then some (f, t) else none
    | _ => none

/-- The object literal returned by `CircuitEngine.autoPosition`. -/
structure AutoPos where
  x : Nat
  y : Nat
deriving Repr, DecidableEq

/-- A JavaScript value stored in the `x`/`y` field of a component: either the
number produced by `parseInt`, or — when `parseInt(x)` is falsy (capture
absent, hence `NaN`, or the digits parse to `0`) — the `{x, y}` object
returned by `autoPosition()`. -/
inductive JsPos where
  | num (n : Nat)
  | obj (p : AutoPos)
deriving Repr, DecidableEq

/-- A parsed component record, as pushed by `CircuitEngine.parseLine`. -/
structure Component where
  name : List Char
  type : List Char
  value : List Char
  x : JsPos
  y : JsPos
deriving Repr, DecidableEq

/-- A parsed connection record; the source fields are `from`/`to`
(`from` is reserved in Lean, hence `fromName`/`toName`). -/
structure Connection where
  fromName : List Char
  toName : List Char
deriving Repr, DecidableEq

/-- The mutable parse lists of the engine (`this.components`,
`this.connections`). -/
structure ParseState where
  components : List Component
  connections : List Connection
deriving Repr, DecidableEq

/-- `CircuitEngine.autoPosition`: grid slot from the current length of
`this.components` (7 columns, 100-unit cells, origin (100, 100)). -/
def autoPosition (components : List Component) : AutoPos :=
  let gridSize := 100
  let cols := 7
  let index := components.length
  ⟨100 + (index % cols) * gridSize, 100 + (index / cols) * gridSize⟩

/-- The value of `parseInt(d) || this.autoPosition()` for an optional
digit-string capture `d`. -/
def storedCoord (d : Option (List Char)) (components : List Component) : JsPos :=
  match d with
  | some ds => if natOfDigits ds = 0 then .obj (autoPosition components) else .num (natOfDigits ds)
  | none => .obj (autoPosition components)

/-- The component object literal pushed by `parseLine` on a component
match (`type` lower-cased, `value` defaulting to the empty string,
coordinates via
`parseInt(..) || this.autoPosition()`). -/
def mkComponent (m : CompMatch) (components : List Component) : Component :=
  { name := m.name
    type := m.type.map Char.toLower
    value := m.value.getD []
    x := storedCoord m.x components
    y := storedCoord m.y components }

/-- `CircuitEngine.parseLine`, including the trailing "auto-connection"
branch of the source (reached only when both regexes failed; it
re-checks `componentMatch` and reads `components[components.length]`). -/
def parseLine (s : ParseState) (line : List Char) : ParseState :=
  match componentMatch line with
  | some m => { s with components := s.components ++ [mkComponent m s.components] }
  | none =>
    match connectionMatch line with
    | some (f, t) => { s with connections := s.connections ++ [⟨f, t⟩] }
    | none =>
      if s.components.length > 0 && !(hasArrow line) then
        match componentMatch line with
        | some _ =>
          match s.components.get? (s.components.length - 1),
                s.components.get? s.components.length with
          | some lastComponent, some currentComponent =>
            { s with connections :=
                s.connections ++ [⟨lastComponent.name, currentComponent.name⟩] }
          | _, _ => s
        | none => s
      else s

/-- The non-blank, non-comment lines fed to `parseLine`, already
trimmed (`split('\n')`, `filter`, `trim`). -/
def processedLines (code : String) : List (List Char) :=
  (((splitLines code.data).filter
      (fun l => !(jsTrim l).isEmpty && !isCommentLine (jsTrim l))).map jsTrim)

/-- The value/exception of one `parseCircuitCode` call as a function of
the input text alone. -/
def parseResultOf (code : String) : Except String ParseState :=
  if jsTrim code.data = [] then .error "Please enter circuit code"
  else
    let st := (processedLines code).foldl parseLine ⟨[], []⟩
    if st.components = [] then .error "No valid components found in code"
    else .ok st

/-- Engine instance state (`this.components`, `this.connections`,
`this.zoom`; the `svgCanvas` handle carries no parse/zoom data and is
omitted).  Zoom arithmetic is modelled with exact rationals. -/
structure CircuitEngine where
  components : List Component
  connections : List Connection
  zoom : ℚ
deriving Repr, DecidableEq

/-- The `CircuitEngine` constructor. -/
def CircuitEngine.init : CircuitEngine :=
  { components := [], connections := [], zoom := 1 }

/-- `CircuitEngine.parseCircuitCode`: resets both lists, throws on
blank input, folds `parseLine` over the surviving trimmed lines, throws
when no component was produced, otherwise returns the two lists.  The
first projection is the engine state after the call, the second the
returned value or thrown error message. -/
def parseCircuitCode (e : CircuitEngine) (code : String) :
    CircuitEngine × Except String ParseState :=
  if jsTrim code.data = [] then
    ({ e with components := [], connections := [] }, .error "Please enter circuit code")
  else
    let st := (processedLines code).foldl parseLine ⟨[], []⟩
    ({ e with components := st.components, connections := st.connections },
      if st.components = [] then .error "No valid components found in code"
      else .ok st)

/-- An SVG attribute value as set by `setAttribute`: a number, or the
string a non-number stringifies to. -/
inductive JsAttrVal where
  | num (n : Nat)
  | str (s : List Char)
deriving Repr, DecidableEq

/-- A scene-graph element appended to the SVG root.  `wire` and `dot`
record the attribute values computed by `drawConnection`; `symbol`
stands for the single `<g>` group that each defined per-type drawing
routine (and the generic fallback, via the `default` switch arm)
appends for one component — the shape primitives inside the group are
not needed by any claim and are abstracted into the component payload.
Six switch arms dispatch to methods that do not exist and throw instead
of appending; see `missingDrawTypes`. -/
inductive SvgElem where
  | grid
  | wire (x1 y1 x2 y2 : JsAttrVal)
  | dot (cx cy : JsAttrVal)
  | symbol (c : Component)
deriving Repr, DecidableEq

/-- JavaScript `p + k` for a coordinate field `p` and literal offset
`k`: numeric addition on a number, string concatenation on the
`autoPosition` object (which stringifies to "[object Object]"). -/
def jsAddNum (p : JsPos) (k : Nat) : JsAttrVal :=
  match p with
  | .num n => .num (n + k)
  | .obj _ => .str ("[object Object]".data ++ Nat.toDigits 10 k)

/-- The attribute value of a coordinate field used without an offset. -/
def jsAttrOfPos : JsPos → JsAttrVal
  | .num n => .num n
  | .obj _ => .str "[object Object]".data

/-- `CircuitEngine.addConnectionDot`. -/
def addConnectionDot (svg : List SvgElem) (x y : JsAttrVal) : List SvgElem :=
  svg ++ [.dot x y]

/-- `CircuitEngine.drawConnection`: looks both endpoint names up with
`find` (first match wins), returns the scene untouched when either is
missing, otherwise appends the wire line and the two terminal dots. -/
def drawConnection (svg : List SvgElem) (conn : Connection)
    (components : List Component) : List SvgElem :=
  match components.find? (fun c => c.name = conn.fromName),
        components.find? (fun c => c.name = conn.toName) with
  | some fromComp, some toComp =>
    let svg1 := svg ++ [.wire (jsAddNum fromComp.x 40) (jsAddNum fromComp.y 20)
                              (jsAttrOfPos toComp.x) (jsAddNum toComp.y 20)]
    addConnectionDot
      (addConnectionDot svg1 (jsAddNum fromComp.x 40) (jsAddNum fromComp.y 20))
      (jsAttrOfPos toComp.x) (jsAddNum toComp.y 20)
  | _, _ => svg

/-- The six type-switch arms of `CircuitEngine.drawComponent` that
dispatch to methods never defined anywhere on the class (drawIRSensor,
drawAccelerometer, drawGyro, drawStepper, drawOLED, draw7Segment);
reaching one of them throws `TypeError: this.drawX is not a function`
instead of drawing. -/
def missingDrawTypes : List (List Char) :=
  ["ir_sensor", "accelerometer", "gyro", "stepper", "oled", "7segment"].map String.data

/-- `CircuitEngine.drawComponent`: every other arm of the type switch,
including the `default` generic-box arm, appends exactly one group for
the component; for the six `missingDrawTypes` arms the call throws, so
nothing is appended and the thrown TypeError (tagged here with the
offending type) escapes. -/
def drawComponent (svg : List SvgElem) (c : Component) :
    List SvgElem × Option (List Char) :=
  if c.type ∈ missingDrawTypes then (svg, some c.type)
  else (svg ++ [.symbol c], none)

/-- The `components.forEach(comp => this.drawComponent(svg, comp))` loop
of `generateCircuit`: a throw inside the callback aborts the iteration;
the scene keeps what was already appended (the SVG element is live DOM)
and the exception propagates. -/
def drawComponentsLoop (svg : List SvgElem) :
    List Component → List SvgElem × Option (List Char)
  | [] => (svg, none)
  | c :: rest =>
    match drawComponent svg c with
    | (svg2, none) => drawComponentsLoop svg2 rest
    | (svg2, some e) => (svg2, some e)

/-- `CircuitEngine.generateCircuit`: clears the canvas, adds the grid,
draws all connections, then the components in order.  The first
projection is the scene at exit (complete, or partial when the loop
threw), the second the escaped TypeError tag, `none` on success. -/
def generateCircuit (components : List Component)
    (connections : List Connection) : List SvgElem × Option (List Char) :=
  let svg : List SvgElem := [.grid]
  let svg1 := connections.foldl (fun s k => drawConnection s k components) svg
  drawComponentsLoop svg1 components

/-- `CircuitEngine.zoomIn`: `this.zoom = Math.min(this.zoom + 0.1, 3)`. -/
def zoomIn (e : CircuitEngine) : CircuitEngine :=
  { e with zoom := min (e.zoom + 1/10) 3 }

/-- `CircuitEngine.zoomOut`: `this.zoom = Math.max(this.zoom - 0.1, 0.5)`. -/
def zoomOut (e : CircuitEngine) : CircuitEngine :=
  { e with zoom := max (e.zoom - 1/10) (1/2) }

/-- One call of the zoom-button handlers in `main.js`. -/
inductive ZoomOp where
  | zin
  | zout
deriving Repr, DecidableEq

/-- A finite sequence of zoom-in / zoom-out calls. -/
def applyZoomOps (e : CircuitEngine) (ops : List ZoomOp) : CircuitEngine :=
  ops.foldl (fun st op => match op with | .zin => zoomIn st | .zout => zoomOut st) e

/-- One diagnostic pushed by `validateCircuitCode` in `main.js`.  The
payload is the data interpolated into the message string: the
one-based line number and, where present, the offending name or the
original (not lower-cased) type token. -/
inductive Diagnostic where
  | duplicateName (line : Nat) (name : List Char)
  | unknownType (line : Nat) (ty : List Char)
  | invalidLine (line : Nat)
  | missingComponent (line : Nat) (name : List Char)
deriving Repr, DecidableEq

/-- The `validTypes` array of `validateCircuitCode`. -/
def validTypes : List (List Char) :=
  ["resistor", "capacitor", "inductor", "led", "battery", "ground", "switch",
   "npn", "transistor",
   "arduino_uno", "arduino_nano", "arduino_mega", "esp32", "esp32_cam", "esp8266",
   "ultrasonic", "dht11", "dht22", "pir", "ir_sensor", "accelerometer", "gyro", "ldr",
   "servo", "dc_motor", "stepper", "relay", "buzzer", "rgb_led",
   "lcd", "oled", "7segment", "potentiometer", "pushbutton",
   "virtual_wall", "virtual_obstacle", "virtual_target", "virtual_light"].map String.data

/-- A connection remembered by the validator together with its
one-based line number. -/
structure PendingConn where
  fromName : List Char
  toName : List Char
  line : Nat
deriving Repr, DecidableEq

/-- The local accumulators of the validator (`errors`, `componentNames`,
`connections`).  `componentNames` is a JS `Set`; only membership is
ever queried, so it is modelled as the insertion list. -/
structure ValidateState where
  errors : List Diagnostic
  componentNames : List (List Char)
  connections : List PendingConn
deriving Repr, DecidableEq

/-- The body of the `lines.forEach((line, index) => ...)` callback of
`validateCircuitCode`, for zero-based index `idx`. -/
def validateStep (st : ValidateState) (idx : Nat) (line : List Char) : ValidateState :=
  let trimmed := jsTrim line
  if trimmed = [] || isCommentLine trimmed then st
  else
    match componentMatch trimmed with
    | some m =>
      let st1 :=
        if m.name ∈ st.componentNames then
          { st with errors := st.errors ++ [.duplicateName (idx + 1) m.name] }
        else st
      let st2 := { st1 with componentNames := st1.componentNames ++ [m.name] }
      if m.type.map Char.toLower ∈ validTypes then st2
      else { st2 with errors := st2.errors ++ [.unknownType (idx + 1) m.type] }
    | none =>
      match connectionMatch trimmed with
      | some (f, t) => { st with connections := st.connections ++ [⟨f, t, idx + 1⟩] }
      | none => { st with errors := st.errors ++ [.invalidLine (idx + 1)] }

/-- The indexed `forEach` loop of `validateCircuitCode`. -/
def validateLines (st : ValidateState) (idx : Nat) : List (List Char) → ValidateState
  | [] => st
  | l :: rest => validateLines (validateStep st idx l) (idx + 1) rest

/-- The trailing `connections.forEach` pass: one missing-component
diagnostic per undeclared endpoint (so up to two for one line). -/
def danglingPass (names : List (List Char)) (errors : List Diagnostic) :
    List PendingConn → List Diagnostic
  | [] => errors
  | c :: rest =>
    let e1 := if c.fromName ∈ names then errors
              else errors ++ [.missingComponent c.line c.fromName]
    let e2 := if c.toName ∈ names then e1
              else e1 ++ [.missingComponent c.line c.toName]
    danglingPass names e2 rest

/-- `validateCircuitCode` from `main.js`: a pure function of the text
(it reads and writes only its own locals, never the engine). -/
def validateCircuitCode (code : String) : List Diagnostic :=
  let st := validateLines ⟨[], [], []⟩ 0 (splitLines code.data)
  danglingPass st.componentNames st.errors st.connections

/-- An observable effect of the PNG-export path: a notification posted
by `showMessage` (text and severity tag), or a triggered download. -/
inductive UiEvent where
  | message (text : String) (kind : String)
  | download (filename : String)
deriving Repr, DecidableEq

/-- The observable behavior of `exportPNG` in `main.js` calling
`CircuitEngine.exportPNG`, as a function of whether the serialized SVG
can be decoded as an image (`decodeOk`).  The engine method returns
synchronously after assigning `img.src`, so the wrapper success
notification is always posted; the only callback registered on the
image is `onload` (there is no `onerror` handler), so a failed decode
runs no code at all, and a successful one runs the canvas draw and
triggers the fixed-name download. -/
def exportPNGEvents (decodeOk : Bool) : List UiEvent :=
  [.message "Circuit exported as PNG successfully" "success"] ++
    (if decodeOk then [.download "circuit-diagram.png"] else [])

/-- Whether a UI event reports an error to the user. -/
def isErrorEvent : UiEvent → Bool
  | .message _ kind => kind = "error"
  | .download _ => false

/-- The component carried by a `symbol` scene element, if any. -/
def symbolPayload : SvgElem → Option Component
  | .symbol c => some c
  | _ => none

/-- The names declared by the component-matching lines of a line list
(in order).  Blank and comment lines match neither regex, so no guard
is needed. -/
def declaredIn (ls : List (List Char)) : List (List Char) :=
  ls.filterMap (fun l => (componentMatch (jsTrim l)).map CompMatch.name)

/-- The pending connections the validator collects from a line list,
starting at zero-based line index `idx`. -/
def connLinesFrom (idx : Nat) : List (List Char) → List PendingConn
  | [] => []
  | l :: rest =>
    ((connectionMatch (jsTrim l)).map
        (fun p => PendingConn.mk p.1 p.2 (idx + 1))).toList ++
      connLinesFrom (idx + 1) rest

/-- Helper: the value or exception of a parse call is a function of the
input text alone (the engine resets both lists before reading them). -/
theorem parseCircuitCode_snd (e : CircuitEngine) (code : String) :
    (parseCircuitCode e code).2 = parseResultOf code := by
  unfold parseCircuitCode parseResultOf
  split <;> rfl

/-- C1: on the spec example input, parseCircuitCode returns two component
records and one connection record.  R1 is as the claim states (resistor,
330, numeric position 250/100) and the connection is R1 to LED1; but the
auto-positioned LED1 does not carry the numeric coordinates x = 200,
y = 100 the claim asserts: `parseInt(undefined) || this.autoPosition()`
stores the whole `autoPosition()` object (grid slot 200/100 at index 1)
in both the x and the y field, so the stored coordinates are objects,
not numbers. -/
theorem c1_example_parse :
    (parseCircuitCode CircuitEngine.init
        "R1: resistor 330 (250,100)\nLED1: led red\nR1 -> LED1").2 =
      .ok ⟨[⟨"R1".data, "resistor".data, "330".data, .num 250, .num 100⟩,
            ⟨"LED1".data, "led".data, "red".data,
             .obj ⟨200, 100⟩, .obj ⟨200, 100⟩⟩],
           [⟨"R1".data, "LED1".data⟩]⟩ := by
  rfl

/-- C3: parsing is deterministic and history-independent: two calls on
engines in arbitrary states (hence after arbitrary earlier parses)
return the same value, which is a pure function of the text alone, so
no record of a previous parse survives into a later result. -/
theorem c3_parse_pure (e1 e2 : CircuitEngine) (code : String) :
    (parseCircuitCode e1 code).2 = (parseCircuitCode e2 code).2 ∧
    (parseCircuitCode e1 code).2 = parseResultOf code := by
  refine ⟨?_, parseCircuitCode_snd e1 code⟩
  rw [parseCircuitCode_snd, parseCircuitCode_snd]

/-- C2: parseCircuitCode throws the empty-input error iff the trimmed
text is empty, throws the no-components error iff the text is non-blank
and the line fold produced zero components, and in every other case
returns the folded component and connection lists without throwing. -/
theorem c2_parse_error_contract (e : CircuitEngine) (code : String) :
    ((parseCircuitCode e code).2 = .error "Please enter circuit code" ↔
      jsTrim code.data = [])
  ∧ ((parseCircuitCode e code).2 = .error "No valid components found in code" ↔
      (jsTrim code.data ≠ [] ∧
        ((processedLines code).foldl parseLine ⟨[], []⟩).components = []))
  ∧ ((parseCircuitCode e code).2 = .ok ((processedLines code).foldl parseLine ⟨[], []⟩) ↔
      (jsTrim code.data ≠ [] ∧
        ((processedLines code).foldl parseLine ⟨[], []⟩).components ≠ [])) := by
  have hmsg : ("Please enter circuit code" : String) ≠ "No valid components found in code" := by
    decide
  rw [parseCircuitCode_snd]
  unfold parseResultOf
  by_cases h1 : jsTrim code.data = [] <;>
    by_cases h2 : ((processedLines code).foldl parseLine ⟨[], []⟩).components = [] <;>
      simp [h1, h2, hmsg]

/-- C9 counterexample: the explicit position (0,50) is not stored as
x = 0: `parseInt("0")` is falsy, so x receives the autoPosition object
instead (while y = 50 is kept), refuting the claim that an explicit 0
coordinate is stored as 0. -/
theorem c9_zero_coordinate_lost :
    ((parseCircuitCode CircuitEngine.init "R1: resistor 330 (0,50)").2 =
      .ok ⟨[⟨"R1".data, "resistor".data, "330".data, .obj ⟨100, 100⟩, .num 50⟩], []⟩) ∧
    JsPos.obj ⟨100, 100⟩ ≠ JsPos.num 0 := by
  exact ⟨rfl, by simp⟩

/-- C9 (amended): a component line carrying an explicit position whose
digit strings parse to non-zero values stores exactly those numeric
coordinates; a coordinate that is absent or parses to 0 is replaced by
the value of `parseInt(..) || this.autoPosition()`, i.e. the
autoPosition object. -/
theorem c9_explicit_positive_coords (s : ParseState) (l : List Char) (m : CompMatch)
    (dx dy : List Char) (hm : componentMatch l = some m)
    (hx : m.x = some dx) (hy : m.y = some dy)
    (hx0 : natOfDigits dx ≠ 0) (hy0 : natOfDigits dy ≠ 0) :
    parseLine s l = { s with components := s.components ++
      [{ name := m.name, type := m.type.map Char.toLower, value := m.value.getD [],
         x := .num (natOfDigits dx), y := .num (natOfDigits dy) }] } := by
  simp only [parseLine, hm, mkComponent, storedCoord, hx, hy, if_neg hx0, if_neg hy0]

/-- Witness for C9 at a concrete line with explicit position (5,6). -/
theorem c9_witness :
    parseLine ⟨[], []⟩ "R1: led red (5,6)".data =
      ⟨[{ name := "R1".data, type := "led".data, value := "red".data,
          x := .num 5, y := .num 6 }], []⟩ := by
  have h := c9_explicit_positive_coords ⟨[], []⟩ "R1: led red (5,6)".data
    ⟨"R1".data, "led".data, some "red".data, some "5".data, some "6".data⟩
    "5".data "6".data rfl rfl rfl (by decide) (by decide)
  simpa using h

/-- C7: contrary to the claim, a failed image decode during PNG export
surfaces nothing: the engine registers only an onload callback (no
onerror), so when the serialized SVG cannot be decoded no code runs at
all, no error notification is ever produced, and the wrapper has already
posted a success notification. -/
theorem c7_png_decode_failure_silent :
    (exportPNGEvents false =
      [.message "Circuit exported as PNG successfully" "success"]) ∧
    (∀ b : Bool, (exportPNGEvents b).filter isErrorEvent = []) := by
  refine ⟨rfl, ?_⟩
  intro b
  cases b <;> rfl

theorem applyZoomOps_components (ops : List ZoomOp) (e : CircuitEngine) :
    (applyZoomOps e ops).components = e.components := by
  induction ops generalizing e with
  | nil => rfl
  | cons op rest ih =>
    cases op <;> simpa [applyZoomOps, zoomIn, zoomOut] using ih _

theorem applyZoomOps_zoom_bounds (ops : List ZoomOp) (e : CircuitEngine)
    (h1 : 1/2 ≤ e.zoom) (h2 : e.zoom ≤ 3) :
    1/2 ≤ (applyZoomOps e ops).zoom ∧ (applyZoomOps e ops).zoom ≤ 3 := by
  induction ops generalizing e with
  | nil => exact ⟨h1, h2⟩
  | cons op rest ih =>
    cases op with
    | zin =>
      refine ih (zoomIn e) ?_ ?_
      · exact le_min (by linarith) (by norm_num)
      · exact min_le_right _ _
    | zout =>
      refine ih (zoomOut e) ?_ ?_
      · exact le_max_right _ _
      · exact max_le (by linarith) (by norm_num)

/-- C6: starting from the constructor zoom factor 1, any finite sequence
of zoomIn / zoomOut calls keeps the zoom factor within [1/2, 3]; from
any in-range state one zoomIn increases the factor by at most 1/10 and
one zoomOut decreases it by at most 1/10; and zooming never changes the
stored component list (hence no stored coordinate).  The 0.1 / 0.5 / 3
double literals of the source are modelled as exact rationals. -/
theorem c6_zoom_clamped (ops : List ZoomOp) (e : CircuitEngine)
    (h1 : 1/2 ≤ e.zoom) (h2 : e.zoom ≤ 3) :
    (1/2 ≤ (applyZoomOps CircuitEngine.init ops).zoom ∧
      (applyZoomOps CircuitEngine.init ops).zoom ≤ 3) ∧
    (e.zoom ≤ (zoomIn e).zoom ∧ (zoomIn e).zoom ≤ e.zoom + 1/10 ∧
      (zoomOut e).zoom ≤ e.zoom ∧ e.zoom - 1/10 ≤ (zoomOut e).zoom) ∧
    (applyZoomOps e ops).components = e.components := by
  refine ⟨applyZoomOps_zoom_bounds ops CircuitEngine.init (by norm_num [CircuitEngine.init])
      (by norm_num [CircuitEngine.init]), ⟨?_, ?_, ?_, ?_⟩,
      applyZoomOps_components ops e⟩
  · exact le_min (by linarith) h2
  · exact min_le_left _ _
  · exact max_le (by linarith) h1
  · exact le_max_left _ _

/-- Witness for C6 at the initial engine and a singleton zoom-in. -/
theorem c6_witness :
    ((1/2 ≤ (applyZoomOps CircuitEngine.init [ZoomOp.zin]).zoom ∧
      (applyZoomOps CircuitEngine.init [ZoomOp.zin]).zoom ≤ 3) ∧
    (CircuitEngine.init.zoom ≤ (zoomIn CircuitEngine.init).zoom ∧
      (zoomIn CircuitEngine.init).zoom ≤ CircuitEngine.init.zoom + 1/10 ∧
      (zoomOut CircuitEngine.init).zoom ≤ CircuitEngine.init.zoom ∧
      CircuitEngine.init.zoom - 1/10 ≤ (zoomOut CircuitEngine.init).zoom) ∧
    (applyZoomOps CircuitEngine.init [ZoomOp.zin]).components =
      CircuitEngine.init.components) := by
  exact c6_zoom_clamped [ZoomOp.zin] CircuitEngine.init
    (by norm_num [CircuitEngine.init]) (by norm_num [CircuitEngine.init])

theorem connectionMatch_componentMatch_none (l f t : List Char)
    (hm : connectionMatch l = some (f, t)) : componentMatch l = none := by
  unfold connectionMatch at hm
  unfold componentMatch
  rcases hsp : l.span isWordChar with ⟨nm, r0⟩
  rw [hsp] at hm
  simp only at hm ⊢
  by_cases hnm : nm = []
  · simp [hnm] at hm
  · simp only [if_neg hnm] at hm ⊢
    cases r0 with
    | nil => rfl
    | cons c r0t =>
      by_cases hc : c = ':'
      · subst hc
        have hdw : (':' :: r0t).dropWhile isJsSpace = ':' :: r0t := by
          rw [List.dropWhile_cons_of_neg]
          decide
        rw [hdw] at hm
        exact absurd hm (by simp)
      · split
        · next r1 heq =>
          injection heq with h1 h2
          exact absurd h1 hc
        · rfl

/-- C4: a line matching the connection grammar is parsed into the
connection list regardless of whether its endpoint names exist; during
rendering, drawConnection leaves the scene untouched (no wire, no
terminal dots, no error) when either endpoint name has no matching
component, and appends the wire line plus the two terminal dots when
both match. -/
theorem c4_dangling_skipped (s : ParseState) (l f t : List Char)
    (svg : List SvgElem) (conn : Connection) (comps : List Component)
    (hm : connectionMatch l = some (f, t)) :
    (parseLine s l = { s with connections := s.connections ++ [⟨f, t⟩] }) ∧
    ((comps.find? (fun c => c.name = conn.fromName) = none ∨
      comps.find? (fun c => c.name = conn.toName) = none) →
        drawConnection svg conn comps = svg) ∧
    (∀ fc tc, comps.find? (fun c => c.name = conn.fromName) = some fc →
        comps.find? (fun c => c.name = conn.toName) = some tc →
        drawConnection svg conn comps =
          svg ++ [.wire (jsAddNum fc.x 40) (jsAddNum fc.y 20)
                        (jsAttrOfPos tc.x) (jsAddNum tc.y 20),
                  .dot (jsAddNum fc.x 40) (jsAddNum fc.y 20),
                  .dot (jsAttrOfPos tc.x) (jsAddNum tc.y 20)]) := by
  refine ⟨?_, ?_, ?_⟩
  · simp only [parseLine, connectionMatch_componentMatch_none l f t hm, hm]
  · intro h
    rcases hf : comps.find? (fun c => c.name = conn.fromName) with _ | fc
    · simp [drawConnection, hf]
    · rcases h with h | h
      · rw [hf] at h; exact absurd h (by simp)
      · simp [drawConnection, hf, h]
  · intro fc tc hf ht
    simp [drawConnection, hf, ht, addConnectionDot, List.append_assoc]

/-- Witness for C4: a concrete connection line is parsed into the list. -/
theorem c4_witness :
    parseLine ⟨[], []⟩ "A -> B".data =
      ⟨[], [⟨"A".data, "B".data⟩]⟩ :=
  (c4_dangling_skipped ⟨[], []⟩ "A -> B".data "A".data "B".data [SvgElem.grid]
    ⟨"X".data, "Y".data⟩ [] rfl).1

theorem parseLine_connections_cases (s : ParseState) (l : List Char) :
    (parseLine s l).connections = s.connections ∨
      ∃ f t, connectionMatch l = some (f, t) ∧
        (parseLine s l).connections = s.connections ++ [⟨f, t⟩] := by
  unfold parseLine
  rcases hcm : componentMatch l with _ | m
  · rcases hkm : connectionMatch l with _ | ⟨f, t⟩
    · left
      simp only []
      split
      · rfl
      · rfl
    · right
      exact ⟨f, t, rfl, rfl⟩
  · left; rfl

theorem foldl_parseLine_connections (ls : List (List Char)) (s : ParseState)
    (k : Connection) (hk : k ∈ (ls.foldl parseLine s).connections) :
    k ∈ s.connections ∨
      ∃ l ∈ ls, connectionMatch l = some (k.fromName, k.toName) := by
  induction ls generalizing s with
  | nil => exact Or.inl hk
  | cons l rest ih =>
    rcases ih (parseLine s l) hk with h | ⟨l2, hl2, hm2⟩
    · rcases parseLine_connections_cases s l with hc | ⟨f, t, hm, hc⟩
      · rw [hc] at h; exact Or.inl h
      · rw [hc] at h
        rcases List.mem_append.mp h with h | h
        · exact Or.inl h
        · right
          refine ⟨l, List.mem_cons_self _ _, ?_⟩
          rcases List.mem_singleton.mp h with rfl
          exact hm
    · exact Or.inr ⟨l2, List.mem_cons_of_mem _ hl2, hm2⟩

/-- C8: a parseLine step changes the connection list only by appending
the record of a line matching the connection grammar — in particular the
trailing auto-connection branch never appends, since on its path
componentMatch is none and `components[components.length]` is absent —
and consequently every connection in a successful parse result stems
from a processed line matching the connection grammar. -/
theorem c8_no_implicit_connections (s : ParseState) (l : List Char) (code : String)
    (st : ParseState) (k : Connection)
    (hok : parseResultOf code = .ok st) (hk : k ∈ st.connections) :
    ((parseLine s l).connections = s.connections ∨
      ∃ f t, connectionMatch l = some (f, t) ∧
        (parseLine s l).connections = s.connections ++ [⟨f, t⟩]) ∧
    ∃ line ∈ processedLines code,
      connectionMatch line = some (k.fromName, k.toName) := by
  refine ⟨parseLine_connections_cases s l, ?_⟩
  unfold parseResultOf at hok
  split at hok
  · exact absurd hok (by simp)
  · dsimp only at hok
    split at hok
    · exact absurd hok (by simp)
    · have hst : (processedLines code).foldl parseLine ⟨[], []⟩ = st := by
        exact Except.ok.inj hok
      rw [← hst] at hk
      rcases foldl_parseLine_connections (processedLines code) ⟨[], []⟩ k hk with h | h
      · exact absurd h (by simp)
      · exact h

/-- Witness for C8 on a concrete two-line input. -/
theorem c8_witness :
    ∃ line ∈ processedLines "A: resistor\nA -> B",
      connectionMatch line =
        some (Connection.fromName ⟨"A".data, "B".data⟩,
              Connection.toName ⟨"A".data, "B".data⟩) :=
  (c8_no_implicit_connections ⟨[], []⟩ [] "A: resistor\nA -> B"
    ⟨[⟨"A".data, "resistor".data, [], .obj ⟨100, 100⟩, .obj ⟨100, 100⟩⟩],
     [⟨"A".data, "B".data⟩]⟩
    ⟨"A".data, "B".data⟩ rfl (by simp)).2

theorem drawConnection_symbols (svg : List SvgElem) (k : Connection)
    (comps : List Component) :
    (drawConnection svg k comps).filterMap symbolPayload =
      svg.filterMap symbolPayload := by
  unfold drawConnection
  rcases h1 : comps.find? (fun c => c.name = k.fromName) with _ | fc <;>
    rcases h2 : comps.find? (fun c => c.name = k.toName) with _ | tc <;>
      simp [h1, h2, addConnectionDot, symbolPayload]

theorem foldl_drawConnection_symbols (conns : List Connection)
    (svg : List SvgElem) (comps : List Component) :
    ((conns.foldl (fun s k => drawConnection s k comps) svg).filterMap symbolPayload) =
      svg.filterMap symbolPayload := by
  induction conns generalizing svg with
  | nil => rfl
  | cons k rest ih => rw [List.foldl_cons, ih, drawConnection_symbols]

theorem drawComponentsLoop_all_ok (comps : List Component) (svg : List SvgElem)
    (h : ∀ x ∈ comps, x.type ∉ missingDrawTypes) :
    drawComponentsLoop svg comps = (svg ++ comps.map SvgElem.symbol, none) := by
  induction comps generalizing svg with
  | nil => simp [drawComponentsLoop]
  | cons c rest ih =>
    rw [drawComponentsLoop]
    unfold drawComponent
    rw [if_neg (h c (List.mem_cons_self _ _))]
    show drawComponentsLoop (svg ++ [SvgElem.symbol c]) rest =
      (svg ++ List.map SvgElem.symbol (c :: rest), none)
    have hih := ih (svg ++ [.symbol c]) (fun x hx => h x (List.mem_cons_of_mem _ hx))
    simpa using hih

theorem find?_first_match (pre post : List Component) (c : Component) (n : List Char)
    (hc : c.name = n) (hpre : ∀ p ∈ pre, p.name ≠ n) :
    (pre ++ c :: post).find? (fun x => x.name = n) = some c := by
  induction pre with
  | nil =>
    rw [List.nil_append, List.find?_cons_of_pos _ (by simp [hc])]
  | cons p rest ih =>
    have hp : p.name ≠ n := hpre p (List.mem_cons_self _ _)
    rw [List.cons_append, List.find?_cons_of_neg _ (by simp [hp])]
    exact ih fun q hq => hpre q (List.mem_cons_of_mem _ hq)

/-- C10 counterexample: declaring the same name twice with type `oled`
parses into two records, but the renderer draws neither — `oled` is
dispatched to the undefined `drawOLED`, so the very first drawComponent
call throws and the scene keeps only the grid, with no symbol at all. -/
theorem c10_render_abort :
    ((parseCircuitCode CircuitEngine.init "A: oled\nA: oled").2 =
      .ok ⟨[⟨"A".data, "oled".data, [], .obj ⟨100, 100⟩, .obj ⟨100, 100⟩⟩,
            ⟨"A".data, "oled".data, [], .obj ⟨200, 100⟩, .obj ⟨200, 100⟩⟩], []⟩) ∧
    (generateCircuit
        [⟨"A".data, "oled".data, [], .obj ⟨100, 100⟩, .obj ⟨100, 100⟩⟩,
         ⟨"A".data, "oled".data, [], .obj ⟨200, 100⟩, .obj ⟨200, 100⟩⟩] [] =
      ([.grid], some "oled".data)) ∧
    (([SvgElem.grid].filterMap symbolPayload) = []) := by
  exact ⟨rfl, rfl, rfl⟩

/-- C10 (amended): two component lines declaring the same name produce
two separate records kept in parse order; when every component in the
rendered list has a type whose drawing routine exists (i.e. none of the
six `missingDrawTypes`), the renderer completes without throwing and
draws one symbol per record, duplicates included (the symbols of the
scene are exactly the component list) — otherwise the loop throws at
the first such component and later records, duplicates included, are
not drawn; and name lookup in drawConnection uses find, which returns
the earliest record with the name. -/
theorem c10_duplicate_names (s : ParseState) (l1 l2 : List Char) (m1 m2 : CompMatch)
    (comps pre post : List Component) (conns : List Connection)
    (c : Component) (n : List Char)
    (h1 : componentMatch l1 = some m1) (h2 : componentMatch l2 = some m2)
    (_hdup : m2.name = m1.name)
    (hdraw : ∀ x ∈ comps, x.type ∉ missingDrawTypes)
    (hsplit : comps = pre ++ c :: post) (hc : c.name = n)
    (hpre : ∀ p ∈ pre, p.name ≠ n) :
    ((parseLine (parseLine s l1) l2).components =
        s.components ++ [mkComponent m1 s.components,
          mkComponent m2 (s.components ++ [mkComponent m1 s.components])]) ∧
    ((generateCircuit comps conns).2 = none) ∧
    ((generateCircuit comps conns).1.filterMap symbolPayload = comps) ∧
    (comps.find? (fun x => x.name = n) = some c) := by
  have hgen : generateCircuit comps conns =
      ((conns.foldl (fun s k => drawConnection s k comps) [.grid]) ++
        comps.map SvgElem.symbol, none) := by
    unfold generateCircuit
    rw [drawComponentsLoop_all_ok comps _ hdraw]
  refine ⟨?_, ?_, ?_, ?_⟩
  · simp only [parseLine, h1, h2, List.append_assoc, List.singleton_append,
      List.cons_append, List.nil_append]
  · rw [hgen]
  · rw [hgen]
    simp only [List.filterMap_append, foldl_drawConnection_symbols]
    have hcomp : symbolPayload ∘ SvgElem.symbol = some := rfl
    simp [List.filterMap_map, hcomp, symbolPayload]
  · rw [hsplit]
    exact find?_first_match pre post c n hc hpre

/-- Witness for C10: find returns the first of two same-named records
(both with defined drawing routines). -/
theorem c10_witness :
    ([(⟨"A".data, "led".data, [], .num 1, .num 2⟩ : Component),
      ⟨"A".data, "battery".data, [], .num 3, .num 4⟩].find?
        (fun x => x.name = "A".data) =
      some ⟨"A".data, "led".data, [], .num 1, .num 2⟩) :=
  (c10_duplicate_names ⟨[], []⟩ "A: led".data "A: battery".data
    ⟨"A".data, "led".data, none, none, none⟩
    ⟨"A".data, "battery".data, none, none, none⟩
    [⟨"A".data, "led".data, [], .num 1, .num 2⟩,
     ⟨"A".data, "battery".data, [], .num 3, .num 4⟩]
    [] [⟨"A".data, "battery".data, [], .num 3, .num 4⟩] []
    ⟨"A".data, "led".data, [], .num 1, .num 2⟩ "A".data
    rfl rfl rfl (by decide) rfl rfl (by simp)).2.2.2

theorem componentMatch_active (t : List Char) (m : CompMatch)
    (h : componentMatch t = some m) : t ≠ [] ∧ isCommentLine t = false := by
  constructor
  · rintro rfl
    rw [show componentMatch [] = none from rfl] at h
    simp at h
  · rcases t with _ | ⟨a, _ | ⟨b, rest⟩⟩
    · rfl
    · rfl
    · by_cases ha : a = '/'
      · subst ha
        have hw : isWordChar '/' = false := by decide
        have hsp : ('/' :: b :: rest).span isWordChar = ([], '/' :: b :: rest) := by
          rw [List.span_eq_take_drop]
          simp [List.takeWhile_cons, List.dropWhile_cons, hw]
        have hnone : componentMatch ('/' :: b :: rest) = none := by
          unfold componentMatch
          rw [hsp]
          simp
        rw [hnone] at h
        simp at h
      · simp [isCommentLine, ha]

theorem connectionMatch_active (t : List Char) (f g : List Char)
    (h : connectionMatch t = some (f, g)) : t ≠ [] ∧ isCommentLine t = false := by
  constructor
  · rintro rfl
    rw [show connectionMatch [] = none from rfl] at h
    simp at h
  · rcases t with _ | ⟨a, _ | ⟨b, rest⟩⟩
    · rfl
    · rfl
    · by_cases ha : a = '/'
      · subst ha
        have hw : isWordChar '/' = false := by decide
        have hsp : ('/' :: b :: rest).span isWordChar = ([], '/' :: b :: rest) := by
          rw [List.span_eq_take_drop]
          simp [List.takeWhile_cons, List.dropWhile_cons, hw]
        have hnone : connectionMatch ('/' :: b :: rest) = none := by
          unfold connectionMatch
          rw [hsp]
          simp
        rw [hnone] at h
        simp at h
      · simp [isCommentLine, ha]

theorem componentMatch_imp_connectionMatch_none (t : List Char) (m : CompMatch)
    (h : componentMatch t = some m) : connectionMatch t = none := by
  rcases hkm : connectionMatch t with _ | ⟨f, g⟩
  · rfl
  · rw [connectionMatch_componentMatch_none t f g hkm] at h
    simp at h

theorem isCommentLine_imp_componentMatch_none (t : List Char)
    (h : isCommentLine t = true) : componentMatch t = none := by
  rcases hcm : componentMatch t with _ | m
  · rfl
  · rw [(componentMatch_active t m hcm).2] at h
    simp at h

theorem isCommentLine_imp_connectionMatch_none (t : List Char)
    (h : isCommentLine t = true) : connectionMatch t = none := by
  rcases hkm : connectionMatch t with _ | ⟨f, g⟩
  · rfl
  · rw [(connectionMatch_active t f g hkm).2] at h
    simp at h

theorem validateStep_names (st : ValidateState) (idx : Nat) (l : List Char) :
    (validateStep st idx l).componentNames =
      st.componentNames ++ ((componentMatch (jsTrim l)).map CompMatch.name).toList := by
  unfold validateStep
  rcases hcm : componentMatch (jsTrim l) with _ | m
  · simp only [hcm]
    rcases hkm : connectionMatch (jsTrim l) with _ | p <;>
      simp only [hkm] <;> split <;> simp
  · simp only [hcm]
    split
    · next hcond =>
      rcases componentMatch_active _ _ hcm with ⟨hne, hcl⟩
      simp [hcl, hne] at hcond
    · by_cases hdup : m.name ∈ st.componentNames <;>
        by_cases hty : m.type.map Char.toLower ∈ validTypes <;>
          simp [hdup, hty]

theorem validateStep_conns (st : ValidateState) (idx : Nat) (l : List Char) :
    (validateStep st idx l).connections =
      st.connections ++ ((connectionMatch (jsTrim l)).map
        (fun p => PendingConn.mk p.1 p.2 (idx + 1))).toList := by
  unfold validateStep
  rcases hcm : componentMatch (jsTrim l) with _ | m
  · simp only [hcm]
    rcases hkm : connectionMatch (jsTrim l) with _ | p
    · simp only [hkm]
      split <;> simp
    · split
      · next hcond =>
        rcases connectionMatch_active _ _ _ hkm with ⟨hne, hcl⟩
        simp [hcl, hne] at hcond
      · simp only [hkm]
        simp
  · rw [componentMatch_imp_connectionMatch_none _ _ hcm]
    simp only [hcm]
    split
    · simp
    · by_cases hdup : m.name ∈ st.componentNames <;>
        by_cases hty : m.type.map Char.toLower ∈ validTypes <;>
          simp [hdup, hty]

theorem validateStep_errors_prefix (st : ValidateState) (idx : Nat) (l : List Char) :
    ∃ es, (validateStep st idx l).errors = st.errors ++ es := by
  unfold validateStep
  rcases hcm : componentMatch (jsTrim l) with _ | m
  · simp only [hcm]
    rcases hkm : connectionMatch (jsTrim l) with _ | p <;> simp only [hkm]
    · split
      · exact ⟨[], by simp⟩
      · exact ⟨[.invalidLine (idx + 1)], rfl⟩
    · split
      · exact ⟨[], by simp⟩
      · exact ⟨[], by simp⟩
  · simp only [hcm]
    split
    · exact ⟨[], by simp⟩
    · by_cases hdup : m.name ∈ st.componentNames <;>
        by_cases hty : m.type.map Char.toLower ∈ validTypes
      · exact ⟨[.duplicateName (idx + 1) m.name], by simp [hdup, hty]⟩
      · exact ⟨[.duplicateName (idx + 1) m.name, .unknownType (idx + 1) m.type],
          by simp [hdup, hty, List.append_assoc]⟩
      · exact ⟨[], by simp [hdup, hty]⟩
      · exact ⟨[.unknownType (idx + 1) m.type], by simp [hdup, hty]⟩

theorem declaredIn_append (a b : List (List Char)) :
    declaredIn (a ++ b) = declaredIn a ++ declaredIn b := by
  unfold declaredIn
  exact List.filterMap_append _ _ _

theorem validateLines_names (ls : List (List Char)) (st : ValidateState) (idx : Nat) :
    (validateLines st idx ls).componentNames = st.componentNames ++ declaredIn ls := by
  induction ls generalizing st idx with
  | nil => simp [validateLines, declaredIn]
  | cons l rest ih =>
    rw [validateLines, ih, validateStep_names]
    rcases h : componentMatch (jsTrim l) with _ | m <;>
      simp [declaredIn, List.filterMap_cons, h, List.append_assoc]

theorem validateLines_conns (ls : List (List Char)) (st : ValidateState) (idx : Nat) :
    (validateLines st idx ls).connections = st.connections ++ connLinesFrom idx ls := by
  induction ls generalizing st idx with
  | nil => simp [validateLines, connLinesFrom]
  | cons l rest ih =>
    rw [validateLines, ih, validateStep_conns]
    rcases h : connectionMatch (jsTrim l) with _ | p <;>
      simp [connLinesFrom, h, List.append_assoc]

theorem validateLines_errors_prefix (ls : List (List Char)) (st : ValidateState) (idx : Nat) :
    ∃ es, (validateLines st idx ls).errors = st.errors ++ es := by
  induction ls generalizing st idx with
  | nil => exact ⟨[], by simp [validateLines]⟩
  | cons l rest ih =>
    rw [validateLines]
    rcases ih (validateStep st idx l) (idx + 1) with ⟨es2, h2⟩
    rcases validateStep_errors_prefix st idx l with ⟨es1, h1⟩
    exact ⟨es1 ++ es2, by rw [h2, h1, List.append_assoc]⟩

theorem validateLines_append (pre rest : List (List Char)) (st : ValidateState) (idx : Nat) :
    validateLines st idx (pre ++ rest) =
      validateLines (validateLines st idx pre) (idx + pre.length) rest := by
  induction pre generalizing st idx with
  | nil => simp [validateLines]
  | cons l pres ih =>
    rw [List.cons_append, validateLines, validateLines, ih]
    have h : idx + 1 + pres.length = idx + (l :: pres).length := by
      simp only [List.length_cons]
      omega
    rw [h]

theorem danglingPass_errors_prefix (conns : List PendingConn)
    (names : List (List Char)) (errors : List Diagnostic) :
    ∃ es, danglingPass names errors conns = errors ++ es := by
  induction conns generalizing errors with
  | nil => exact ⟨[], by simp [danglingPass]⟩
  | cons c rest ih =>
    rw [danglingPass]
    by_cases h1 : c.fromName ∈ names <;> by_cases h2 : c.toName ∈ names <;>
      simp only [h1, h2, if_pos, if_neg, ite_true, ite_false]
    · exact ih errors
    · rcases ih (errors ++ [.missingComponent c.line c.toName]) with ⟨es, h⟩
      exact ⟨_, by rw [h, List.append_assoc]⟩
    · rcases ih (errors ++ [.missingComponent c.line c.fromName]) with ⟨es, h⟩
      exact ⟨_, by rw [h, List.append_assoc]⟩
    · rcases ih ((errors ++ [.missingComponent c.line c.fromName]) ++
        [.missingComponent c.line c.toName]) with ⟨es, h⟩
      exact ⟨_, by rw [h, List.append_assoc, List.append_assoc]⟩

theorem validateStep_invalid_push (st : ValidateState) (idx : Nat) (l : List Char)
    (h1 : jsTrim l ≠ []) (h2 : isCommentLine (jsTrim l) = false)
    (h3 : componentMatch (jsTrim l) = none) (h4 : connectionMatch (jsTrim l) = none) :
    (validateStep st idx l).errors = st.errors ++ [.invalidLine (idx + 1)] := by
  unfold validateStep
  simp [h1, h2, h3, h4]

theorem validateStep_dup_push (st : ValidateState) (idx : Nat) (l : List Char)
    (m : CompMatch) (hm : componentMatch (jsTrim l) = some m)
    (hdup : m.name ∈ st.componentNames) :
    Diagnostic.duplicateName (idx + 1) m.name ∈ (validateStep st idx l).errors := by
  rcases componentMatch_active _ _ hm with ⟨hne, hcl⟩
  unfold validateStep
  simp only [hne, hcl, hm]
  by_cases hty : m.type.map Char.toLower ∈ validTypes <;>
    simp [hdup, hty, hne, hcl]

theorem validateStep_unknown_push (st : ValidateState) (idx : Nat) (l : List Char)
    (m : CompMatch) (hm : componentMatch (jsTrim l) = some m)
    (hty : m.type.map Char.toLower ∉ validTypes) :
    Diagnostic.unknownType (idx + 1) m.type ∈ (validateStep st idx l).errors := by
  rcases componentMatch_active _ _ hm with ⟨hne, hcl⟩
  unfold validateStep
  simp only [hne, hcl, hm]
  by_cases hdup : m.name ∈ st.componentNames <;>
    simp [hdup, hty, hne, hcl]

theorem danglingPass_mem_from (conns : List PendingConn) (names : List (List Char))
    (c : PendingConn) (hf : c.fromName ∉ names) :
    ∀ errors, c ∈ conns →
      Diagnostic.missingComponent c.line c.fromName ∈ danglingPass names errors conns := by
  induction conns with
  | nil => intro errors hc; cases hc
  | cons a rest ih =>
    intro errors hc
    rcases List.mem_cons.mp hc with rfl | hmem
    · rw [danglingPass]
      simp only [if_neg hf]
      by_cases ht : c.toName ∈ names
      · simp only [if_pos ht]
        rcases danglingPass_errors_prefix rest names
          (errors ++ [.missingComponent c.line c.fromName]) with ⟨es, h⟩
        rw [h]
        simp
      · simp only [if_neg ht]
        rcases danglingPass_errors_prefix rest names
          ((errors ++ [.missingComponent c.line c.fromName]) ++
            [.missingComponent c.line c.toName]) with ⟨es, h⟩
        rw [h]
        simp
    · rw [danglingPass]
      exact ih _ hmem

theorem danglingPass_mem_to (conns : List PendingConn) (names : List (List Char))
    (c : PendingConn) (ht : c.toName ∉ names) :
    ∀ errors, c ∈ conns →
      Diagnostic.missingComponent c.line c.toName ∈ danglingPass names errors conns := by
  induction conns with
  | nil => intro errors hc; cases hc
  | cons a rest ih =>
    intro errors hc
    rcases List.mem_cons.mp hc with rfl | hmem
    · rw [danglingPass]
      simp only [if_neg ht]
      by_cases hf : c.fromName ∈ names
      · simp only [if_pos hf]
        rcases danglingPass_errors_prefix rest names
          (errors ++ [.missingComponent c.line c.toName]) with ⟨es, h⟩
        rw [h]
        simp
      · simp only [if_neg hf]
        rcases danglingPass_errors_prefix rest names
          ((errors ++ [.missingComponent c.line c.fromName]) ++
            [.missingComponent c.line c.toName]) with ⟨es, h⟩
        rw [h]
        simp
    · rw [danglingPass]
      exact ih _ hmem

theorem connLinesFrom_mem_of_split (pre post : List (List Char)) (l f t : List Char)
    (hm : connectionMatch (jsTrim l) = some (f, t)) :
    ∀ idx, PendingConn.mk f t (idx + pre.length + 1) ∈
      connLinesFrom idx (pre ++ l :: post) := by
  induction pre with
  | nil => intro idx; simp [connLinesFrom, hm]
  | cons p pres ih =>
    intro idx
    rw [List.cons_append, connLinesFrom]
    refine List.mem_append.mpr (Or.inr ?_)
    have h : idx + (p :: pres).length + 1 = (idx + 1) + pres.length + 1 := by
      simp only [List.length_cons]
      omega
    rw [h]
    exact ih (idx + 1)

theorem mem_validate_of_step (code : String) (pre post : List (List Char))
    (l : List Char) (d : Diagnostic)
    (hsplit : splitLines code.data = pre ++ l :: post)
    (hd : d ∈ (validateStep (validateLines ⟨[], [], []⟩ 0 pre) pre.length l).errors) :
    d ∈ validateCircuitCode code := by
  unfold validateCircuitCode
  rw [hsplit, validateLines_append, validateLines]
  simp only [Nat.zero_add]
  rcases validateLines_errors_prefix post
    (validateStep (validateLines ⟨[], [], []⟩ 0 pre) pre.length l)
    (pre.length + 1) with ⟨es, h⟩
  rcases danglingPass_errors_prefix
    (validateLines (validateStep (validateLines ⟨[], [], []⟩ 0 pre) pre.length l)
      (pre.length + 1) post).connections
    (validateLines (validateStep (validateLines ⟨[], [], []⟩ 0 pre) pre.length l)
      (pre.length + 1) post).componentNames
    (validateLines (validateStep (validateLines ⟨[], [], []⟩ 0 pre) pre.length l)
      (pre.length + 1) post).errors with ⟨es2, h2⟩
  rw [h2, h]
  simp [hd]

theorem mem_validate_dangling_from (code : String) (pre post : List (List Char))
    (l f t : List Char)
    (hsplit : splitLines code.data = pre ++ l :: post)
    (hm : connectionMatch (jsTrim l) = some (f, t))
    (hf : f ∉ declaredIn (splitLines code.data)) :
    Diagnostic.missingComponent (pre.length + 1) f ∈ validateCircuitCode code := by
  unfold validateCircuitCode
  have hconn : PendingConn.mk f t (pre.length + 1) ∈
      (validateLines ⟨[], [], []⟩ 0 (splitLines code.data)).connections := by
    rw [validateLines_conns, hsplit]
    have := connLinesFrom_mem_of_split pre post l f t hm 0
    simpa using this
  have hnames : (validateLines ⟨[], [], []⟩ 0 (splitLines code.data)).componentNames =
      declaredIn (splitLines code.data) := by
    rw [validateLines_names]
    simp
  have := danglingPass_mem_from
    (validateLines ⟨[], [], []⟩ 0 (splitLines code.data)).connections
    (validateLines ⟨[], [], []⟩ 0 (splitLines code.data)).componentNames
    ⟨f, t, pre.length + 1⟩ (by rw [hnames]; exact hf)
    (validateLines ⟨[], [], []⟩ 0 (splitLines code.data)).errors hconn
  exact this

theorem mem_validate_dangling_to (code : String) (pre post : List (List Char))
    (l f t : List Char)
    (hsplit : splitLines code.data = pre ++ l :: post)
    (hm : connectionMatch (jsTrim l) = some (f, t))
    (ht : t ∉ declaredIn (splitLines code.data)) :
    Diagnostic.missingComponent (pre.length + 1) t ∈ validateCircuitCode code := by
  unfold validateCircuitCode
  have hconn : PendingConn.mk f t (pre.length + 1) ∈
      (validateLines ⟨[], [], []⟩ 0 (splitLines code.data)).connections := by
    rw [validateLines_conns, hsplit]
    have := connLinesFrom_mem_of_split pre post l f t hm 0
    simpa using this
  have hnames : (validateLines ⟨[], [], []⟩ 0 (splitLines code.data)).componentNames =
      declaredIn (splitLines code.data) := by
    rw [validateLines_names]
    simp
  exact danglingPass_mem_to
    (validateLines ⟨[], [], []⟩ 0 (splitLines code.data)).connections
    (validateLines ⟨[], [], []⟩ 0 (splitLines code.data)).componentNames
    ⟨f, t, pre.length + 1⟩ (by rw [hnames]; exact ht)
    (validateLines ⟨[], [], []⟩ 0 (splitLines code.data)).errors hconn

theorem danglingPass_clean (conns : List PendingConn) (names : List (List Char))
    (h : ∀ c ∈ conns, c.fromName ∈ names ∧ c.toName ∈ names) :
    ∀ errors, danglingPass names errors conns = errors := by
  induction conns with
  | nil => intro errors; rfl
  | cons a rest ih =>
    intro errors
    rw [danglingPass]
    rcases h a (List.mem_cons_self _ _) with ⟨h1, h2⟩
    simp only [if_pos h1, if_pos h2]
    exact ih (fun c hc => h c (List.mem_cons_of_mem _ hc)) errors

theorem connLinesFrom_mem_split (ls : List (List Char)) :
    ∀ idx c, c ∈ connLinesFrom idx ls →
      ∃ p l q, ls = p ++ l :: q ∧
        connectionMatch (jsTrim l) = some (c.fromName, c.toName) := by
  induction ls with
  | nil => intro idx c hc; simp [connLinesFrom] at hc
  | cons l rest ih =>
    intro idx c hc
    rw [connLinesFrom] at hc
    rcases List.mem_append.mp hc with h | h
    · rcases hkm : connectionMatch (jsTrim l) with _ | p
      · rw [hkm] at h
        simp at h
      · rw [hkm] at h
        simp at h
        subst h
        exact ⟨[], l, rest, by simp, by simpa using hkm⟩
    · rcases ih (idx + 1) c h with ⟨p, l2, q, hsp, hkm2⟩
      exact ⟨l :: p, l2, q, by rw [hsp, List.cons_append], hkm2⟩

theorem validate_clean_aux (L : List (List Char))
    (H : ∀ p l q, L = p ++ l :: q → jsTrim l ≠ [] → isCommentLine (jsTrim l) = false →
      (∃ m, componentMatch (jsTrim l) = some m ∧ m.name ∉ declaredIn p ∧
        m.type.map Char.toLower ∈ validTypes) ∨
      (∃ f t, connectionMatch (jsTrim l) = some (f, t))) :
    ∀ ls pre st, L = pre ++ ls →
      st.componentNames = declaredIn pre → st.errors = [] →
      (validateLines st pre.length ls).errors = [] := by
  intro ls
  induction ls with
  | nil =>
    intro pre st hL hn he
    simpa [validateLines] using he
  | cons l rest ih =>
    intro pre st hL hn he
    rw [validateLines]
    have hL2 : L = (pre ++ [l]) ++ rest := by rw [hL]; simp
    have hlen : pre.length + 1 = (pre ++ [l]).length := by simp
    by_cases hact : jsTrim l = [] ∨ isCommentLine (jsTrim l) = true
    · have hcm : componentMatch (jsTrim l) = none := by
        rcases hact with h | h
        · rw [h]; rfl
        · exact isCommentLine_imp_componentMatch_none _ h
      have hstep : validateStep st pre.length l = st := by
        unfold validateStep
        rcases hact with h | h <;> simp [h]
      have hn2 : st.componentNames = declaredIn (pre ++ [l]) := by
        rw [declaredIn_append]
        simp [declaredIn, hcm, hn]
      rw [hstep, hlen]
      exact ih (pre ++ [l]) st hL2 hn2 he
    · have hne : jsTrim l ≠ [] := fun h => hact (Or.inl h)
      have hcl : isCommentLine (jsTrim l) = false := by
        rcases hb : isCommentLine (jsTrim l) with _ | _
        · rfl
        · exact absurd (Or.inr hb) hact
      rcases H pre l rest (by rw [hL]) hne hcl with ⟨m, hm, hfresh, hty⟩ | ⟨f, t, hkm⟩
      · have hstep_err : (validateStep st pre.length l).errors = st.errors := by
          unfold validateStep
          have hdup : m.name ∉ st.componentNames := by rw [hn]; exact hfresh
          simp [hne, hcl, hm, hty, hdup]
        have hstep_names : (validateStep st pre.length l).componentNames =
            st.componentNames ++ [m.name] := by
          rw [validateStep_names, hm]
          simp
        have hn2 : (validateStep st pre.length l).componentNames =
            declaredIn (pre ++ [l]) := by
          rw [hstep_names, declaredIn_append, hn]
          simp [declaredIn, hm]
        rw [hlen]
        exact ih (pre ++ [l]) _ hL2 hn2 (by rw [hstep_err]; exact he)
      · have hcm : componentMatch (jsTrim l) = none :=
          connectionMatch_componentMatch_none _ _ _ hkm
        have hstep_err : (validateStep st pre.length l).errors = st.errors := by
          unfold validateStep
          simp [hne, hcl, hcm, hkm]
        have hn2 : (validateStep st pre.length l).componentNames =
            declaredIn (pre ++ [l]) := by
          rw [validateStep_names, hcm, declaredIn_append, hn]
          simp [declaredIn, hcm]
        rw [hlen]
        exact ih (pre ++ [l]) _ hL2 hn2 (by rw [hstep_err]; exact he)

theorem validate_clean (code : String)
    (H : ∀ p l q, splitLines code.data = p ++ l :: q →
      jsTrim l ≠ [] → isCommentLine (jsTrim l) = false →
      (∃ m, componentMatch (jsTrim l) = some m ∧ m.name ∉ declaredIn p ∧
        m.type.map Char.toLower ∈ validTypes) ∨
      (∃ f t, connectionMatch (jsTrim l) = some (f, t) ∧
        f ∈ declaredIn (splitLines code.data) ∧
        t ∈ declaredIn (splitLines code.data))) :
    validateCircuitCode code = [] := by
  unfold validateCircuitCode
  have Hweak : ∀ p l q, splitLines code.data = p ++ l :: q →
      jsTrim l ≠ [] → isCommentLine (jsTrim l) = false →
      (∃ m, componentMatch (jsTrim l) = some m ∧ m.name ∉ declaredIn p ∧
        m.type.map Char.toLower ∈ validTypes) ∨
      (∃ f t, connectionMatch (jsTrim l) = some (f, t)) := by
    intro p l q hs h1 h2
    rcases H p l q hs h1 h2 with h | ⟨f, t, hk, _, _⟩
    · exact Or.inl h
    · exact Or.inr ⟨f, t, hk⟩
  have herr : (validateLines ⟨[], [], []⟩ 0 (splitLines code.data)).errors = [] := by
    have := validate_clean_aux (splitLines code.data) Hweak (splitLines code.data)
      [] ⟨[], [], []⟩ (by simp) (by simp [declaredIn]) rfl
    simpa using this
  have hnames : (validateLines ⟨[], [], []⟩ 0 (splitLines code.data)).componentNames =
      declaredIn (splitLines code.data) := by
    rw [validateLines_names]
    simp
  have hconns : (validateLines ⟨[], [], []⟩ 0 (splitLines code.data)).connections =
      connLinesFrom 0 (splitLines code.data) := by
    rw [validateLines_conns]
    simp
  have hcln : ∀ c ∈ (validateLines ⟨[], [], []⟩ 0 (splitLines code.data)).connections,
      c.fromName ∈ (validateLines ⟨[], [], []⟩ 0 (splitLines code.data)).componentNames ∧
      c.toName ∈ (validateLines ⟨[], [], []⟩ 0 (splitLines code.data)).componentNames := by
    intro c hc
    rw [hconns] at hc
    rcases connLinesFrom_mem_split (splitLines code.data) 0 c hc with ⟨p, l, q, hsp, hkm⟩
    rcases connectionMatch_active _ _ _ hkm with ⟨hne, hcl⟩
    rcases H p l q hsp hne hcl with ⟨m, hm, _, _⟩ | ⟨f, t, hkm2, hfin, htin⟩
    · rw [connectionMatch_componentMatch_none _ _ _ hkm] at hm
      exact absurd hm (by simp)
    · rw [hkm] at hkm2
      have hp2 := Option.some.inj hkm2
      have hf2 : f = c.fromName := (congrArg Prod.fst hp2).symm
      have ht2 : t = c.toName := (congrArg Prod.snd hp2).symm
      rw [hnames]
      exact ⟨hf2 ▸ hfin, ht2 ▸ htin⟩
  rw [danglingPass_clean _ _ hcln, herr]

/-- C5 counterexample: on the one-line input "A -> B" the validator
returns two diagnostics for line 1 (one per undeclared endpoint), so it
does not return exactly one diagnostic per offending line. -/
theorem c5_two_diagnostics_one_line :
    validateCircuitCode "A -> B" =
      [.missingComponent 1 "A".data, .missingComponent 1 "B".data] := by
  rfl

/-- C5 (amended): validateCircuitCode returns at least one diagnostic
per offense, one offense kind at a time — a single line can receive two
diagnostics.  Concretely: a non-blank, non-comment line matching neither
grammar yields an invalid-syntax diagnostic; a component line whose name
was already declared earlier yields a duplicate-name diagnostic; a
component line whose lower-cased type is outside the closed enumeration
yields an unknown-type diagnostic; a connection line yields a
missing-component diagnostic for each endpoint not declared anywhere in
the text; and an input with none of these offenses yields the empty
list.  The function never throws (it is total) and touches no engine
state (it is a function of the text only). -/
theorem c5_validator_amended (code : String) (pre post : List (List Char))
    (l : List Char) (m : CompMatch) (f t : List Char) :
    (splitLines code.data = pre ++ l :: post → jsTrim l ≠ [] →
      isCommentLine (jsTrim l) = false → componentMatch (jsTrim l) = none →
      connectionMatch (jsTrim l) = none →
      Diagnostic.invalidLine (pre.length + 1) ∈ validateCircuitCode code) ∧
    (splitLines code.data = pre ++ l :: post → componentMatch (jsTrim l) = some m →
      m.name ∈ declaredIn pre →
      Diagnostic.duplicateName (pre.length + 1) m.name ∈ validateCircuitCode code) ∧
    (splitLines code.data = pre ++ l :: post → componentMatch (jsTrim l) = some m →
      m.type.map Char.toLower ∉ validTypes →
      Diagnostic.unknownType (pre.length + 1) m.type ∈ validateCircuitCode code) ∧
    (splitLines code.data = pre ++ l :: post → connectionMatch (jsTrim l) = some (f, t) →
      (f ∉ declaredIn (splitLines code.data) →
        Diagnostic.missingComponent (pre.length + 1) f ∈ validateCircuitCode code) ∧
      (t ∉ declaredIn (splitLines code.data) →
        Diagnostic.missingComponent (pre.length + 1) t ∈ validateCircuitCode code)) ∧
    ((∀ p l2 q, splitLines code.data = p ++ l2 :: q → jsTrim l2 ≠ [] →
      isCommentLine (jsTrim l2) = false →
      (∃ m2, componentMatch (jsTrim l2) = some m2 ∧ m2.name ∉ declaredIn p ∧
        m2.type.map Char.toLower ∈ validTypes) ∨
      (∃ f2 t2, connectionMatch (jsTrim l2) = some (f2, t2) ∧
        f2 ∈ declaredIn (splitLines code.data) ∧
        t2 ∈ declaredIn (splitLines code.data))) →
      validateCircuitCode code = []) := by
  refine ⟨?_, ?_, ?_, ?_, ?_⟩
  · intro hs h1 h2 h3 h4
    apply mem_validate_of_step code pre post l _ hs
    rw [validateStep_invalid_push _ _ _ h1 h2 h3 h4]
    simp
  · intro hs hm hdup
    apply mem_validate_of_step code pre post l _ hs
    apply validateStep_dup_push _ _ _ _ hm
    rw [validateLines_names]
    simpa using hdup
  · intro hs hm hty
    apply mem_validate_of_step code pre post l _ hs
    exact validateStep_unknown_push _ _ _ _ hm hty
  · intro hs hkm
    exact ⟨fun hf => mem_validate_dangling_from code pre post l f t hs hkm hf,
           fun ht => mem_validate_dangling_to code pre post l f t hs hkm ht⟩
  · intro H
    exact validate_clean code H

/-- Witness for C5: a concrete malformed line receives its diagnostic. -/
theorem c5_witness :
    Diagnostic.invalidLine 1 ∈ validateCircuitCode "???" :=
  (c5_validator_amended "???" [] [] "???".data ⟨[], [], none, none, none⟩ [] []).1
    rfl (by decide) rfl rfl rfl
